import Mathlib

/-!
Verification of the NEEC_MESA_LEDS frame-streaming scripts
(`send_screen_to_leds.py`, `send_video_to_leds.py`).

The development embeds the pixel-serialization, packet-framing, frame-skip
and pacing logic of the two scripts as executable Lean definitions and
proves the documented properties about them.  A frame (a NumPy array of
shape `height × width × channels` with RGB triples at each cell) is
modelled as a structure carrying the three shape numbers and an indexing
function; machine floats that appear in the scripts (frame rates, times)
are modelled as exact rationals.
-/

/-- A NumPy frame of shape `(height, width, channels)` whose cells hold
RGB triples (`frame_rgb[y, x]` unpacks as `r, g, b`).  `data` is the
indexing function; only indices below the bounds are ever read. -/
structure Frame where
  height : Nat
  width : Nat
  channels : Nat
  data : Nat → Nat → Nat × Nat × Nat

/-- The three bytes `[r, g, b]` that `pixel_data.extend([r, g, b])`
appends for one pixel. -/
def pixelBytes (p : Nat × Nat × Nat) : List Nat :=
  [p.1, p.2.1, p.2.2]

/-- The x-indices visited for row `y`: `range(grid_width)` on even rows,
`range(grid_width - 1, -1, -1)` (i.e. the reverse) on odd rows. -/
def rowOrder (grid_width y : Nat) : List Nat :=
  if y % 2 = 0 then List.range grid_width else (List.range grid_width).reverse

/-- The bytes emitted for row `y` of the zigzag loop. -/
def zigzagRow (frame : Frame) (grid_width y : Nat) : List Nat :=
  ((rowOrder grid_width y).map (fun x => pixelBytes (frame.data y x))).flatten

/-- The full `pixel_data` list built by the nested loops
(`for y in range(grid_height)` with the per-row direction switch). -/
def zigzagBytes (frame : Frame) (grid_width grid_height : Nat) : List Nat :=
  ((List.range grid_height).map (fun y => zigzagRow frame grid_width y)).flatten

/-- `prepare_pixel_data_standard_zigzag` of `send_video_to_leds.py`:
if the frame shape differs from `(grid_height, grid_width, 3)` the
function prints an error and returns `None`; otherwise it returns the
zigzag byte list. -/
def prepare_pixel_data_standard_zigzag (frame : Frame)
    (grid_width grid_height : Nat) : Option (List Nat) :=
  if frame.height ≠ grid_height ∨ frame.width ≠ grid_width ∨ frame.channels ≠ 3 then
    none
  else
    some (zigzagBytes frame grid_width grid_height)

/-- `prepare_pixel_data_standard_zigzag` of `send_screen_to_leds.py`.
On a shape mismatch it attempts one corrective `cv2.resize` (modelled by
the external function `resize`, returning `none` when the call raises)
and re-checks; if the resized frame still mismatches (or the resize
failed) it returns `None`, otherwise it serializes the corrected frame. -/
def prepare_pixel_data_standard_zigzag_screen
    (resize : Frame → Nat → Nat → Option Frame) (frame : Frame)
    (grid_width grid_height : Nat) : Option (List Nat) :=
  if frame.height ≠ grid_height ∨ frame.width ≠ grid_width ∨ frame.channels ≠ 3 then
    match resize frame grid_width grid_height with
    | none => none
    | some frame2 =>
      if frame2.height ≠ grid_height ∨ frame2.width ≠ grid_width ∨ frame2.channels ≠ 3 then
        none
      else
        some (zigzagBytes frame2 grid_width grid_height)
  else
    some (zigzagBytes frame grid_width grid_height)

/-- `START_BYTE_1 = 0xA5`. -/
def START_BYTE_1 : Nat := 0xA5

/-- `START_BYTE_2 = 0x5A`. -/
def START_BYTE_2 : Nat := 0x5A

/-- `packet_buffer = bytearray([START_BYTE_1, START_BYTE_2])` followed by
`packet_buffer.extend(pixel_byte_list)`. -/
def mkPacket (pixel_byte_list : List Nat) : List Nat :=
  START_BYTE_1 :: START_BYTE_2 :: pixel_byte_list

/-- `expected_packet_length = 2 + (grid_width * grid_height * 3)`. -/
def expected_packet_length (grid_width grid_height : Nat) : Nat :=
  2 + grid_width * grid_height * 3

/-- What one main-loop iteration does with a frame: skip it
(`continue` with nothing written) or send a packet; the Boolean records
whether the packet-length-mismatch warning was printed first. -/
inductive FrameAction where
  | skipFrame : FrameAction
  | sendPacket : List Nat → Bool → FrameAction
deriving DecidableEq, Repr

/-- The main-loop code after a successful serialization: build the
packet, print the length warning when `len(packet_buffer)` differs from
`expected_packet_length` (the `continue` on that branch is commented
out), then send the packet unconditionally. -/
def packetStage (pixel_byte_list : List Nat) (grid_width grid_height : Nat) :
    FrameAction :=
  let packet_buffer := mkPacket pixel_byte_list
  FrameAction.sendPacket packet_buffer
    (packet_buffer.length != expected_packet_length grid_width grid_height)

/-- One iteration of the screen-sender main loop, from a resized frame
onward: serialize, `continue` on `None`, otherwise frame and send. -/
def loopBody (resize : Frame → Nat → Nat → Option Frame) (frame : Frame)
    (grid_width grid_height : Nat) : FrameAction :=
  match prepare_pixel_data_standard_zigzag_screen resize frame grid_width grid_height with
  | none => FrameAction.skipFrame
  | some pixel_byte_list => packetStage pixel_byte_list grid_width grid_height

/-- The main loop run over a whole sequence of incoming frames. -/
def processFrames (resize : Frame → Nat → Nat → Option Frame)
    (frames : List Frame) (grid_width grid_height : Nat) : List FrameAction :=
  frames.map (fun frame => loopBody resize frame grid_width grid_height)

/-- Python's builtin `round` on an exact rational: round half to even
(banker's rounding), as used in `round(original_fps / target_fps)`. -/
def pyRound (q : ℚ) : ℤ :=
  let f : ℤ := ⌊q⌋
  if q - f < 1 / 2 then f
  else if q - f > 1 / 2 then f + 1
  else if f % 2 = 0 then f else f + 1

/-- The frame-skip computation of `send_video_to_leds.py`:
`frames_to_skip = 1` when `original_fps <= 0`, otherwise
`max(1, round(original_fps / target_fps))`. -/
def frames_to_skip (original_fps target_fps : ℚ) : ℤ :=
  if original_fps ≤ 0 then 1
  else max 1 (pyRound (original_fps / target_fps))

/-- `frame_delay = 1.0 / target_fps`. -/
def frame_delay (target_fps : ℚ) : ℚ :=
  1 / target_fps

/-- The frame-rate control at the bottom of the main loop:
`sleep_time = frame_delay - processing_time`, and `time.sleep` runs only
when `sleep_time > 0` (so the slept amount is 0 otherwise). -/
def pacerSleep (frame_delay processing_time : ℚ) : ℚ :=
  let sleep_time := frame_delay - processing_time
  if sleep_time > 0 then sleep_time else 0

/-- The sleeps the pacer performs over a run: each iteration measures
only its own `processing_time` (from `frame_start_time` taken at the top
of that same iteration), so the slept amounts are a per-iteration map. -/
def pacerSleeps (frame_delay : ℚ) (processing_times : List ℚ) : List ℚ :=
  processing_times.map (fun p => pacerSleep frame_delay p)

/-- Regroup a flat byte list into RGB triples (inverse of the
per-pixel `extend([r, g, b])`). -/
def chunk3 : List Nat → List (Nat × Nat × Nat)
  | r :: g :: b :: rest => (r, g, b) :: chunk3 rest
  | _ => []

/-- Modelled from the spec: the de-zigzag transform ("reversing the known
traversal per row") that the spec asserts reconstructs the grid; it is not
part of the repository code.  Row `y` of the result is the `y`-th block of
`3 * width` payload bytes regrouped into triples, reversed on odd rows. -/
def deZigzagSpec (payload : List Nat) (grid_width grid_height : Nat) :
    List (List (Nat × Nat × Nat)) :=
  (List.range grid_height).map (fun y =>
    let row := chunk3 ((payload.drop (3 * grid_width * y)).take (3 * grid_width))
    if y % 2 = 0 then row else row.reverse)

/-- The frame read back as a row-major list of rows of RGB triples. -/
def frameRows (frame : Frame) (grid_width grid_height : Nat) :
    List (List (Nat × Nat × Nat)) :=
  (List.range grid_height).map (fun y =>
    (List.range grid_width).map (fun x => frame.data y x))

/-- The 2×2 example grid `[[(1,2,3),(4,5,6)],[(7,8,9),(10,11,12)]]`. -/
def exampleFrame : Frame where
  height := 2
  width := 2
  channels := 3
  data := fun y x =>
    if y = 0 then (if x = 0 then (1, 2, 3) else (4, 5, 6))
    else (if x = 0 then (7, 8, 9) else (10, 11, 12))

/-- A 1×1 frame, whose shape mismatches any 2×2 grid. -/
def badFrame : Frame where
  height := 1
  width := 1
  channels := 3
  data := fun _ _ => (0, 0, 0)

/-- C3: on the 2×2 grid `[[(1,2,3),(4,5,6)],[(7,8,9),(10,11,12)]]` the
serializer emits exactly `1,2,3,4,5,6,10,11,12,7,8,9` (row 1 reversed). -/
theorem zigzag_two_by_two_example :
    prepare_pixel_data_standard_zigzag exampleFrame 2 2 =
      some [1, 2, 3, 4, 5, 6, 10, 11, 12, 7, 8, 9] := by
  decide

/-- C6: whenever the packet length disagrees with
`expected_packet_length`, the loop still sends the packet and only sets
the warning flag — the anomaly never yields `skipFrame`. -/
theorem length_mismatch_warns_but_still_sends
    (pixel_byte_list : List Nat) (grid_width grid_height : Nat)
    (h : (mkPacket pixel_byte_list).length ≠ expected_packet_length grid_width grid_height) :
    packetStage pixel_byte_list grid_width grid_height =
      FrameAction.sendPacket (mkPacket pixel_byte_list) true := by
  simp only [packetStage]
  congr 1
  exact bne_iff_ne.mpr h

/-- Witness for C6 at `pixel_byte_list = []`, `grid = 1×1`. -/
theorem length_mismatch_warns_but_still_sends_witness :
    (mkPacket []).length ≠ expected_packet_length 1 1 ∧
      packetStage [] 1 1 = FrameAction.sendPacket (mkPacket []) true :=
  ⟨by decide, length_mismatch_warns_but_still_sends [] 1 1 (by decide)⟩

/-- A flatten of uniformly sized blocks has length `blocks * k`. -/
theorem flatten_uniform_length (L : List (List Nat)) (k : Nat)
    (h : ∀ l ∈ L, l.length = k) : L.flatten.length = L.length * k := by
  induction L with
  | nil => simp
  | cons a t ih =>
    simp only [List.flatten_cons, List.length_append, List.length_cons]
    rw [h a (List.mem_cons_self a t), ih (fun l hl => h l (List.mem_cons_of_mem a hl))]
    ring

/-- Dropping `k * i` bytes from a flatten of `k`-sized blocks (with a tail
appended) drops the first `i` blocks. -/
theorem flatten_uniform_drop (L : List (List Nat)) (k : Nat)
    (h : ∀ l ∈ L, l.length = k) (i : Nat) (hi : i ≤ L.length) (rest : List Nat) :
    (L.flatten ++ rest).drop (k * i) = (L.drop i).flatten ++ rest := by
  induction i generalizing L with
  | zero => simp
  | succ n ih =>
    cases L with
    | nil => exact absurd hi (by simp)
    | cons a t =>
      have ha : a.length = k := h a (List.mem_cons_self a t)
      have ht : ∀ l ∈ t, l.length = k := fun l hl => h l (List.mem_cons_of_mem a hl)
      have hn : n ≤ t.length := by simpa using hi
      have hstep : k * (n + 1) = a.length + k * n := by rw [ha]; ring
      rw [List.flatten_cons, List.append_assoc, hstep, ← List.drop_drop,
        List.drop_left, List.drop_succ_cons, ih t ht hn]

/-- The `i`-th `k`-sized block of a flatten of `k`-sized blocks. -/
theorem flatten_uniform_extract (L : List (List Nat)) (k : Nat)
    (h : ∀ l ∈ L, l.length = k) (i : Nat) (hi : i < L.length) (rest : List Nat) :
    ((L.flatten ++ rest).drop (k * i)).take k = L[i] := by
  rw [flatten_uniform_drop L k h i (Nat.le_of_lt hi) rest,
    List.drop_eq_getElem_cons hi, List.flatten_cons, List.append_assoc]
  exact List.take_left' (h _ (List.getElem_mem hi))

/-- The `j`-th block of a flatten of mapped `k`-sized blocks. -/
theorem flatten_map_extract (xs : List Nat) (f : Nat → List Nat) (k : Nat)
    (hf : ∀ x, (f x).length = k) (j : Nat) (hj : j < xs.length) (rest : List Nat) :
    (((xs.map f).flatten ++ rest).drop (k * j)).take k = f xs[j] := by
  have hj2 : j < (xs.map f).length := by simpa using hj
  have hunif : ∀ l ∈ xs.map f, l.length = k := by
    intro l hl
    obtain ⟨x, hx, rfl⟩ := List.mem_map.mp hl
    exact hf x
  rw [flatten_uniform_extract (xs.map f) k hunif j hj2 rest]
  simp

/-- The per-row index list always has `grid_width` entries. -/
theorem rowOrder_length (grid_width y : Nat) :
    (rowOrder grid_width y).length = grid_width := by
  unfold rowOrder
  split <;> simp

/-- One serialized row is `grid_width * 3` bytes. -/
theorem zigzagRow_length (frame : Frame) (grid_width y : Nat) :
    (zigzagRow frame grid_width y).length = grid_width * 3 := by
  have h3 : ∀ l ∈ (rowOrder grid_width y).map (fun x => pixelBytes (frame.data y x)),
      l.length = 3 := by
    intro l hl
    obtain ⟨x, hx, rfl⟩ := List.mem_map.mp hl
    rfl
  unfold zigzagRow
  rw [flatten_uniform_length _ 3 h3, List.length_map, rowOrder_length]

/-- The whole payload is `grid_height * (grid_width * 3)` bytes. -/
theorem zigzagBytes_length (frame : Frame) (grid_width grid_height : Nat) :
    (zigzagBytes frame grid_width grid_height).length
      = grid_height * (grid_width * 3) := by
  have hrows : ∀ l ∈ (List.range grid_height).map (fun y => zigzagRow frame grid_width y),
      l.length = grid_width * 3 := by
    intro l hl
    obtain ⟨y, hy, rfl⟩ := List.mem_map.mp hl
    exact zigzagRow_length frame grid_width y
  unfold zigzagBytes
  rw [flatten_uniform_length _ (grid_width * 3) hrows, List.length_map, List.length_range]

/-- Rounding a non-positive rational half-to-even never exceeds 1. -/
theorem pyRound_le_one_of_nonpos (q : ℚ) (hq : q ≤ 0) : pyRound q ≤ 1 := by
  have hf : ⌊q⌋ ≤ 0 := Int.floor_nonpos hq
  simp only [pyRound]
  split
  · omega
  · split
    · omega
    · split <;> omega

/-- Half-to-even rounding is the identity on integers. -/
theorem pyRound_intCast (z : ℤ) : pyRound (z : ℚ) = z := by
  simp only [pyRound, Int.floor_intCast]
  rw [if_pos (by norm_num)]

/-- C5: the file-source skip count is `max(1, round(F_native / F_target))`
for every reported native rate and positive target rate; a non-positive
native rate defaults to 1; in particular 30/5 gives 6, a zero native rate
gives 1, and 24/24 gives 1. -/
theorem frames_to_skip_spec (original_fps target_fps : ℚ) (ht : 0 < target_fps) :
    frames_to_skip original_fps target_fps
        = max 1 (pyRound (original_fps / target_fps)) ∧
      (original_fps ≤ 0 → frames_to_skip original_fps target_fps = 1) ∧
      frames_to_skip 30 5 = 6 ∧ frames_to_skip 0 5 = 1 ∧ frames_to_skip 24 24 = 1 := by
  refine ⟨?_, ?_, ?_, ?_, ?_⟩
  · unfold frames_to_skip
    split
    · rename_i hle
      have hq : original_fps / target_fps ≤ 0 :=
        div_nonpos_iff.mpr (Or.inr ⟨hle, ht.le⟩)
      exact (max_eq_left (pyRound_le_one_of_nonpos _ hq)).symm
    · rfl
  · intro h
    unfold frames_to_skip
    rw [if_pos h]
  · unfold frames_to_skip
    rw [if_neg (by norm_num), (by norm_num : (30 : ℚ) / 5 = ((6 : ℤ) : ℚ)),
      pyRound_intCast]
    exact max_eq_right (by norm_num)
  · unfold frames_to_skip
    rw [if_pos le_rfl]
  · unfold frames_to_skip
    rw [if_neg (by norm_num), (by norm_num : (24 : ℚ) / 24 = ((1 : ℤ) : ℚ)),
      pyRound_intCast]
    exact max_eq_right (by norm_num)

/-- Witness for C5 at `F_native = 30`, `F_target = 5`. -/
theorem frames_to_skip_spec_witness :
    (0 : ℚ) < 5 ∧ frames_to_skip 30 5 = 6 :=
  ⟨by norm_num, (frames_to_skip_spec 30 5 (by norm_num)).2.2.1⟩

/-- C8: with the target interval `frame_delay = 1/fps`, an iteration whose
processing time is below the interval sleeps exactly the remainder, one at
or above it sleeps 0, and the sleep of each iteration is a function of that
iteration's own processing time alone (no catch-up across iterations). -/
theorem pacer_sleep_spec (target_fps processing_time : ℚ) (_hfps : 0 < target_fps) :
    (processing_time < frame_delay target_fps →
      pacerSleep (frame_delay target_fps) processing_time
        = frame_delay target_fps - processing_time) ∧
    (frame_delay target_fps ≤ processing_time →
      pacerSleep (frame_delay target_fps) processing_time = 0) ∧
    (∀ (processing_times : List ℚ) (i : Nat),
      (pacerSleeps (frame_delay target_fps) processing_times)[i]?
        = (processing_times[i]?).map
            (fun p => pacerSleep (frame_delay target_fps) p)) := by
  refine ⟨?_, ?_, ?_⟩
  · intro h
    simp only [pacerSleep]
    rw [if_pos (sub_pos.mpr h)]
  · intro h
    simp only [pacerSleep]
    rw [if_neg (not_lt.mpr (sub_nonpos.mpr h))]
  · intro processing_times i
    unfold pacerSleeps
    simp

/-- Witness for C8: a 200 ms interval (fps 5) with a 50 ms iteration
sleeps 150 ms, and with a 250 ms iteration sleeps 0. -/
theorem pacer_sleep_spec_witness :
    ((1 : ℚ) / 20 < frame_delay 5 ∧ pacerSleep (frame_delay 5) (1 / 20) = 3 / 20) ∧
      (frame_delay 5 ≤ 1 / 4 ∧ pacerSleep (frame_delay 5) (1 / 4) = 0) := by
  constructor
  · refine ⟨by norm_num [frame_delay], ?_⟩
    rw [(pacer_sleep_spec 5 (1 / 20) (by norm_num)).1 (by norm_num [frame_delay])]
    norm_num [frame_delay]
  · refine ⟨by norm_num [frame_delay], ?_⟩
    exact (pacer_sleep_spec 5 (1 / 4) (by norm_num)).2.1 (by norm_num [frame_delay])

/-- C9: the serializer is a pure function of the frame, the grid
dimensions and the (deterministic) resize collaborator: two runs on the
same arguments return the same output. -/
theorem zigzag_serializer_deterministic
    (resize : Frame → Nat → Nat → Option Frame) (frame : Frame)
    (grid_width grid_height : Nat) (out1 out2 : Option (List Nat))
    (h1 : prepare_pixel_data_standard_zigzag_screen resize frame grid_width grid_height = out1)
    (h2 : prepare_pixel_data_standard_zigzag_screen resize frame grid_width grid_height = out2) :
    out1 = out2 :=
  h1.symm.trans h2

/-- Witness for C9: two runs on the 2×2 example agree. -/
theorem zigzag_serializer_deterministic_witness :
    prepare_pixel_data_standard_zigzag_screen (fun _ _ _ => none) exampleFrame 2 2
      = some [1, 2, 3, 4, 5, 6, 10, 11, 12, 7, 8, 9] :=
  zigzag_serializer_deterministic (fun _ _ _ => none) exampleFrame 2 2 _ _ rfl (by decide)

/-- A successful serialization is the zigzag byte list of some frame with
the requested shape check passed, so its length is fixed by the grid. -/
theorem prepare_screen_some_length
    (resize : Frame → Nat → Nat → Option Frame) (frame : Frame)
    (grid_width grid_height : Nat) (pixel_byte_list : List Nat)
    (h : prepare_pixel_data_standard_zigzag_screen resize frame grid_width grid_height
      = some pixel_byte_list) :
    pixel_byte_list.length = grid_width * grid_height * 3 := by
  unfold prepare_pixel_data_standard_zigzag_screen at h
  split at h
  · split at h
    · exact absurd h (by simp)
    · split at h
      · exact absurd h (by simp)
      · rw [← Option.some.inj h, zigzagBytes_length]
        ring
  · rw [← Option.some.inj h, zigzagBytes_length]
    ring

/-- Same for the video-sender variant of the serializer. -/
theorem prepare_video_some_length (frame : Frame)
    (grid_width grid_height : Nat) (pixel_byte_list : List Nat)
    (h : prepare_pixel_data_standard_zigzag frame grid_width grid_height
      = some pixel_byte_list) :
    pixel_byte_list.length = grid_width * grid_height * 3 := by
  unfold prepare_pixel_data_standard_zigzag at h
  split at h
  · exact absurd h (by simp)
  · rw [← Option.some.inj h, zigzagBytes_length]
    ring

/-- C4: on every successfully serialized frame, the packet is exactly the
two header bytes `0xA5, 0x5A` followed by the payload, and its total
length is `2 + 3 * grid_width * grid_height`. -/
theorem packet_header_and_length (frame : Frame)
    (grid_width grid_height : Nat) (pixel_byte_list : List Nat)
    (_hgw : 1 ≤ grid_width) (_hgh : 1 ≤ grid_height)
    (h : prepare_pixel_data_standard_zigzag frame grid_width grid_height
      = some pixel_byte_list) :
    mkPacket pixel_byte_list = 0xA5 :: 0x5A :: pixel_byte_list ∧
      (mkPacket pixel_byte_list).take 2 = [0xA5, 0x5A] ∧
      (mkPacket pixel_byte_list).length = 2 + 3 * grid_width * grid_height := by
  refine ⟨rfl, rfl, ?_⟩
  simp only [mkPacket, List.length_cons]
  rw [prepare_video_some_length frame grid_width grid_height pixel_byte_list h]
  ring

/-- Witness for C4 on the 2×2 example grid. -/
theorem packet_header_and_length_witness :
    mkPacket [1, 2, 3, 4, 5, 6, 10, 11, 12, 7, 8, 9]
        = 0xA5 :: 0x5A :: [1, 2, 3, 4, 5, 6, 10, 11, 12, 7, 8, 9] ∧
      (mkPacket [1, 2, 3, 4, 5, 6, 10, 11, 12, 7, 8, 9]).take 2 = [0xA5, 0x5A] ∧
      (mkPacket [1, 2, 3, 4, 5, 6, 10, 11, 12, 7, 8, 9]).length = 2 + 3 * 2 * 2 :=
  packet_header_and_length exampleFrame 2 2 _ (by decide) (by decide) (by decide)

/-- C10: a non-`None` serializer result always has exactly
`grid_width * grid_height * 3` bytes, so the packet-length warning branch
is never taken on a frame that passed serialization (the flag is false and
the packet is sent). -/
theorem payload_length_exact_warning_unreachable
    (resize : Frame → Nat → Nat → Option Frame) (frame : Frame)
    (grid_width grid_height : Nat) (pixel_byte_list : List Nat)
    (h : prepare_pixel_data_standard_zigzag_screen resize frame grid_width grid_height
      = some pixel_byte_list) :
    pixel_byte_list.length = grid_width * grid_height * 3 ∧
      packetStage pixel_byte_list grid_width grid_height
        = FrameAction.sendPacket (mkPacket pixel_byte_list) false := by
  have hlen := prepare_screen_some_length resize frame grid_width grid_height
    pixel_byte_list h
  refine ⟨hlen, ?_⟩
  simp only [packetStage]
  congr 1
  simp only [mkPacket, expected_packet_length, List.length_cons, hlen, bne_eq_false_iff_eq]
  omega

/-- Witness for C10 on the 2×2 example grid (with a resize collaborator
that never succeeds, which is never consulted here). -/
theorem payload_length_exact_warning_unreachable_witness :
    [1, 2, 3, 4, 5, 6, 10, 11, 12, 7, 8, 9].length = 2 * 2 * 3 ∧
      packetStage [1, 2, 3, 4, 5, 6, 10, 11, 12, 7, 8, 9] 2 2
        = FrameAction.sendPacket (mkPacket [1, 2, 3, 4, 5, 6, 10, 11, 12, 7, 8, 9]) false :=
  payload_length_exact_warning_unreachable (fun _ _ _ => none) exampleFrame 2 2 _ (by decide)

/-- C7: a frame whose shape mismatches the target grid triggers the single
corrective resize; when that attempt fails or still mismatches, the
serializer returns `None`, the main loop drops the frame without sending
any bytes and goes on to the remaining frames; when the corrective resize
does produce a matching frame, that frame is serialized instead. -/
theorem dimension_mismatch_drops_frame
    (resize : Frame → Nat → Nat → Option Frame) (frame : Frame)
    (grid_width grid_height : Nat) (rest : List Frame)
    (hmis : frame.height ≠ grid_height ∨ frame.width ≠ grid_width ∨ frame.channels ≠ 3) :
    ((∀ frame2, resize frame grid_width grid_height = some frame2 →
        frame2.height ≠ grid_height ∨ frame2.width ≠ grid_width ∨ frame2.channels ≠ 3) →
      prepare_pixel_data_standard_zigzag_screen resize frame grid_width grid_height = none ∧
      loopBody resize frame grid_width grid_height = FrameAction.skipFrame ∧
      processFrames resize (frame :: rest) grid_width grid_height
        = FrameAction.skipFrame :: processFrames resize rest grid_width grid_height) ∧
    (∀ frame2, resize frame grid_width grid_height = some frame2 →
      (frame2.height = grid_height ∧ frame2.width = grid_width ∧ frame2.channels = 3) →
      prepare_pixel_data_standard_zigzag_screen resize frame grid_width grid_height
        = some (zigzagBytes frame2 grid_width grid_height)) := by
  constructor
  · intro hfail
    have hnone : prepare_pixel_data_standard_zigzag_screen resize frame
        grid_width grid_height = none := by
      unfold prepare_pixel_data_standard_zigzag_screen
      rw [if_pos hmis]
      cases hres : resize frame grid_width grid_height with
      | none => rfl
      | some frame2 => simp [if_pos (hfail frame2 hres)]
    refine ⟨hnone, ?_, ?_⟩
    · unfold loopBody
      rw [hnone]
    · unfold processFrames
      rw [List.map_cons]
      unfold loopBody
      rw [hnone]
  · intro frame2 hres hok
    unfold prepare_pixel_data_standard_zigzag_screen
    rw [if_pos hmis, hres]
    have hok2 : ¬(frame2.height ≠ grid_height ∨ frame2.width ≠ grid_width ∨
        frame2.channels ≠ 3) := by
      push_neg
      exact hok
    simp [hok2]

/-- Witness for C7: a 1×1 frame against a 2×2 grid, with a resize
collaborator that fails; the frame is dropped and the loop moves on. -/
theorem dimension_mismatch_drops_frame_witness :
    (badFrame.height ≠ 2 ∨ badFrame.width ≠ 2 ∨ badFrame.channels ≠ 3) ∧
      (prepare_pixel_data_standard_zigzag_screen (fun _ _ _ => none) badFrame 2 2 = none ∧
        loopBody (fun _ _ _ => none) badFrame 2 2 = FrameAction.skipFrame ∧
        processFrames (fun _ _ _ => none) (badFrame :: []) 2 2
          = FrameAction.skipFrame :: processFrames (fun _ _ _ => none) [] 2 2) :=
  ⟨by decide,
    (dimension_mismatch_drops_frame (fun _ _ _ => none) badFrame 2 2 [] (by decide)).1
      (fun frame2 h => Option.noConfusion h)⟩

/-- On an even row the `j`-th visited x-index is `j` itself. -/
theorem rowOrder_getElem_even (grid_width y x : Nat) (hyev : y % 2 = 0)
    (hx : x < grid_width) :
    (rowOrder grid_width y)[x]? = some x := by
  unfold rowOrder
  rw [if_pos hyev]
  exact List.getElem?_range hx

/-- On an odd row the x-index visited at position `grid_width - 1 - x`
is `x`: the traversal is right to left. -/
theorem rowOrder_getElem_odd (grid_width y x : Nat) (hyodd : y % 2 ≠ 0)
    (hx : x < grid_width) :
    (rowOrder grid_width y)[grid_width - 1 - x]? = some x := by
  unfold rowOrder
  rw [if_neg hyodd]
  have hlt : grid_width - 1 - x < (List.range grid_width).length := by
    simp
    omega
  rw [List.getElem?_reverse (by simpa using hlt)]
  have harith : (List.range grid_width).length - 1 - (grid_width - 1 - x) = x := by
    simp
    omega
  rw [harith]
  exact List.getElem?_range hx

/-- The three payload bytes starting at offset `(y * grid_width + j) * 3`
are the RGB bytes of the pixel the zigzag traversal visits `j`-th within
row `y`. -/
theorem zigzagBytes_extract (frame : Frame) (grid_width grid_height y j xval : Nat)
    (hy : y < grid_height) (hj : j < grid_width)
    (hval : (rowOrder grid_width y)[j]? = some xval) :
    ((zigzagBytes frame grid_width grid_height).drop ((y * grid_width + j) * 3)).take 3
      = pixelBytes (frame.data y xval) := by
  have hj2 : j < (rowOrder grid_width y).length := by
    rw [rowOrder_length]
    exact hj
  have hgj : (rowOrder grid_width y)[j] = xval := by
    have h1 := List.getElem?_eq_getElem hj2
    rw [hval] at h1
    exact (Option.some.inj h1).symm
  have hrows : ∀ l ∈ (List.range grid_height).map (fun r => zigzagRow frame grid_width r),
      l.length = grid_width * 3 := by
    intro l hl
    obtain ⟨r, hr, rfl⟩ := List.mem_map.mp hl
    exact zigzagRow_length frame grid_width r
  have hylt : y < ((List.range grid_height).map (fun r => zigzagRow frame grid_width r)).length := by
    simpa using hy
  have h0 := flatten_uniform_drop
    ((List.range grid_height).map (fun r => zigzagRow frame grid_width r))
    (grid_width * 3) hrows y (Nat.le_of_lt hylt) []
  simp only [List.append_nil] at h0
  have harith : (y * grid_width + j) * 3 = grid_width * 3 * y + 3 * j := by ring
  rw [harith, ← List.drop_drop]
  unfold zigzagBytes
  rw [h0, List.drop_eq_getElem_cons hylt, List.flatten_cons]
  have hrow : ((List.range grid_height).map (fun r => zigzagRow frame grid_width r))[y]
      = zigzagRow frame grid_width y := by
    simp
  rw [hrow]
  unfold zigzagRow
  rw [flatten_map_extract (rowOrder grid_width y) (fun x => pixelBytes (frame.data y x)) 3
    (fun x => rfl) j hj2 _]
  rw [hgj]

/-- C1: on a frame of exactly the grid shape, the serializer succeeds and
lays the pixels out row-major top to bottom with even rows left to right
and odd rows right to left: the three bytes of pixel `(y, x)` sit at
offset `(y * grid_width + x) * 3` on even rows and at offset
`(y * grid_width + (grid_width - 1 - x)) * 3` on odd rows, in (R, G, B)
channel order either way. -/
theorem zigzag_serpentine_order (frame : Frame) (grid_width grid_height : Nat)
    (hh : frame.height = grid_height) (hw : frame.width = grid_width)
    (hc : frame.channels = 3) :
    ∃ pixel_data,
      prepare_pixel_data_standard_zigzag frame grid_width grid_height = some pixel_data ∧
      pixel_data.length = grid_width * grid_height * 3 ∧
      ∀ y x, y < grid_height → x < grid_width →
        (pixel_data.drop
            ((y * grid_width + (if y % 2 = 0 then x else grid_width - 1 - x)) * 3)).take 3
          = [(frame.data y x).1, (frame.data y x).2.1, (frame.data y x).2.2] := by
  refine ⟨zigzagBytes frame grid_width grid_height, ?_, ?_, ?_⟩
  · unfold prepare_pixel_data_standard_zigzag
    have hok : ¬(frame.height ≠ grid_height ∨ frame.width ≠ grid_width ∨
        frame.channels ≠ 3) := by
      push_neg
      exact ⟨hh, hw, hc⟩
    rw [if_neg hok]
  · rw [zigzagBytes_length]
    ring
  · intro y x hy hx
    by_cases hyev : y % 2 = 0
    · rw [if_pos hyev,
        zigzagBytes_extract frame grid_width grid_height y x x hy hx
          (rowOrder_getElem_even grid_width y x hyev hx)]
      rfl
    · have hjx : grid_width - 1 - x < grid_width := by omega
      rw [if_neg hyev,
        zigzagBytes_extract frame grid_width grid_height y (grid_width - 1 - x) x hy hjx
          (rowOrder_getElem_odd grid_width y x hyev hx)]
      rfl

/-- Witness for C1 on the 2×2 example grid. -/
theorem zigzag_serpentine_order_witness :
    ∃ pixel_data,
      prepare_pixel_data_standard_zigzag exampleFrame 2 2 = some pixel_data ∧
      pixel_data.length = 2 * 2 * 3 ∧
      ∀ y x, y < 2 → x < 2 →
        (pixel_data.drop ((y * 2 + (if y % 2 = 0 then x else 2 - 1 - x)) * 3)).take 3
          = [(exampleFrame.data y x).1, (exampleFrame.data y x).2.1,
              (exampleFrame.data y x).2.2] :=
  zigzag_serpentine_order exampleFrame 2 2 rfl rfl rfl

/-- Regrouping the flattened per-pixel byte triples recovers the pixels. -/
theorem chunk3_pixelBytes_flatten (xs : List Nat) (f : Nat → Nat × Nat × Nat) :
    chunk3 ((xs.map (fun x => pixelBytes (f x))).flatten) = xs.map f := by
  induction xs with
  | nil => rfl
  | cons a t ih =>
    have hcons : pixelBytes (f a) ++ (t.map (fun x => pixelBytes (f x))).flatten
        = (f a).1 :: (f a).2.1 :: (f a).2.2 :: (t.map (fun x => pixelBytes (f x))).flatten :=
      rfl
    simp only [List.map_cons, List.flatten_cons, hcons, chunk3, List.append_eq,
      List.nil_append, ih, Prod.mk.eta]

/-- C2: de-zigzagging a serialized payload (regrouping into triples and
reversing the traversal on odd rows) reconstructs the original grid
exactly, for any positive grid dimensions. -/
theorem zigzag_roundtrip (frame : Frame) (grid_width grid_height : Nat)
    (_hgw : 1 ≤ grid_width) (_hgh : 1 ≤ grid_height)
    (hh : frame.height = grid_height) (hw : frame.width = grid_width)
    (hc : frame.channels = 3) :
    ∃ payload,
      prepare_pixel_data_standard_zigzag frame grid_width grid_height = some payload ∧
      deZigzagSpec payload grid_width grid_height
        = frameRows frame grid_width grid_height := by
  refine ⟨zigzagBytes frame grid_width grid_height, ?_, ?_⟩
  · unfold prepare_pixel_data_standard_zigzag
    have hok : ¬(frame.height ≠ grid_height ∨ frame.width ≠ grid_width ∨
        frame.channels ≠ 3) := by
      push_neg
      exact ⟨hh, hw, hc⟩
    rw [if_neg hok]
  · unfold deZigzagSpec frameRows
    apply List.map_congr_left
    intro y hy
    rw [List.mem_range] at hy
    have hrows : ∀ l ∈ (List.range grid_height).map (fun r => zigzagRow frame grid_width r),
        l.length = grid_width * 3 := by
      intro l hl
      obtain ⟨r, hr, rfl⟩ := List.mem_map.mp hl
      exact zigzagRow_length frame grid_width r
    have hylt : y < ((List.range grid_height).map
        (fun r => zigzagRow frame grid_width r)).length := by
      simpa using hy
    have hext := flatten_uniform_extract
      ((List.range grid_height).map (fun r => zigzagRow frame grid_width r))
      (grid_width * 3) hrows y hylt []
    simp only [List.append_nil] at hext
    have hrowval : ((zigzagBytes frame grid_width grid_height).drop
          (3 * grid_width * y)).take (3 * grid_width)
        = zigzagRow frame grid_width y := by
      rw [(by ring : 3 * grid_width = grid_width * 3)]
      unfold zigzagBytes
      rw [hext]
      simp
    have hchunk : chunk3 (((zigzagBytes frame grid_width grid_height).drop
          (3 * grid_width * y)).take (3 * grid_width))
        = (rowOrder grid_width y).map (fun x => frame.data y x) := by
      rw [hrowval]
      unfold zigzagRow
      exact chunk3_pixelBytes_flatten (rowOrder grid_width y) (fun x => frame.data y x)
    dsimp only
    rw [hchunk]
    by_cases hyev : y % 2 = 0
    · rw [if_pos hyev]
      unfold rowOrder
      rw [if_pos hyev]
    · rw [if_neg hyev]
      unfold rowOrder
      rw [if_neg hyev, List.map_reverse, List.reverse_reverse]

/-- Witness for C2 on the 2×2 example grid. -/
theorem zigzag_roundtrip_witness :
    ∃ payload,
      prepare_pixel_data_standard_zigzag exampleFrame 2 2 = some payload ∧
      deZigzagSpec payload 2 2 = frameRows exampleFrame 2 2 :=
  zigzag_roundtrip exampleFrame 2 2 (by decide) (by decide) rfl rfl rfl
